import Mathlib

/-!
Shallow embedding of the PARAM.SFO codec of ps3-game-packager.

Decode side: `ParseParamSFO` from internal/parsers/ps3.go.
Encode side: `generateParamSFO` from the test-fixture generator
(scripts/dev/generate-test-games.go).

Byte buffers are lists of naturals; a list models a Go byte slice through
the value of each element modulo 256 (real buffers only carry values
below 256).  Go's `uint32`/`uint16` arithmetic is modelled with explicit
`% 2^32` / `% 2^16`.  Wherever the Go code takes a slice whose bounds are
not already established by a preceding check, the embedding goes through
`sliceChk`, whose failure case is the explicit out-of-bounds/panic branch
(`PResult.trap`).
-/

set_option maxRecDepth 20000

namespace SFO

/-- Modulus of Go's `uint32` arithmetic. -/
def u32 : Nat := 4294967296

/-- Modulus of Go's `uint16` arithmetic. -/
def u16 : Nat := 65536

/-- Bytes of a sub-slice `data[a : a+n]`, each reduced to its `uint8`
value.  Callers are responsible for bounds; this helper is only applied
where the Go code has already established them (it mirrors reading an
in-bounds slice). -/
def bytesAt (data : List Nat) (a n : Nat) : List Nat :=
  ((data.drop a).take n).map (fun b => b % 256)

/-- Checked slice `data[a:b]`: `none` exactly when Go's slice expression
would panic (`a ≤ b ≤ len` violated). -/
def sliceChk (data : List Nat) (a b : Nat) : Option (List Nat) :=
  if a ≤ b ∧ b ≤ data.length then some (bytesAt data a (b - a)) else none

/-- Little-endian `uint16` of the first two bytes (`binary.LittleEndian.Uint16`). -/
def le16 (bs : List Nat) : Nat :=
  bs.getD 0 0 % 256 + 256 * (bs.getD 1 0 % 256)

/-- Little-endian `uint32` of the first four bytes (`binary.LittleEndian.Uint32`). -/
def le32 (bs : List Nat) : Nat :=
  bs.getD 0 0 % 256 + 256 * (bs.getD 1 0 % 256) +
    65536 * (bs.getD 2 0 % 256) + 16777216 * (bs.getD 3 0 % 256)

/-- Read a little-endian `uint32` at byte offset `i` of the buffer
(`binary.LittleEndian.Uint32(data[i : i+4])`; used only after the length
check that makes the Go slice in bounds). -/
def readU32 (data : List Nat) (i : Nat) : Nat := le32 (bytesAt data i 4)

/-- Serialization of a `uint32` as four little-endian bytes
(`binary.Write(..., binary.LittleEndian, v)`). -/
def putU32 (n : Nat) : List Nat :=
  [n % 256, n / 256 % 256, n / 65536 % 256, n / 16777216 % 256]

/-- Serialization of a `uint16` as two little-endian bytes. -/
def putU16 (n : Nat) : List Nat := [n % 256, n / 256 % 256]

/-- First index of a NUL byte, or `none` (`bytes.IndexByte(bs, 0)`,
`strings.IndexByte(s, 0)`; `-1` becomes `none`). -/
def firstNulIdx : List Nat → Option Nat
  | [] => none
  | b :: bs => if b % 256 = 0 then some 0 else (firstNulIdx bs).map (· + 1)

/-- Data format constants of PARAM.SFO entries (ps3.go lines 13-17). -/
def FMT_UTF8_SPECIAL : Nat := 4

/-- UTF-8 format tag `0x0204`. -/
def FMT_UTF8 : Nat := 516

/-- Int32 format tag `0x0404`. -/
def FMT_INT32 : Nat := 1028

/-- Magic header bytes `"\x00PSF"`. -/
def MAGIC : List Nat := [0, 80, 83, 70]

/-- Errors returned by `ParseParamSFO`, one constructor per `fmt.Errorf`
site, carrying the entry index where the Go message does. -/
inductive Err : Type where
  | invalidMagic : Err
  | truncatedHeader : Err
  | offsetOutOfRange : Err
  | truncatedIndex : Nat → Err
  | invalidKeyOffset : Nat → Err
  | unterminatedKey : Nat → Err
  | valueOutOfBounds : Nat → Err
  | invalidIntegerData : Nat → Err
  deriving DecidableEq, Repr

/-- Result of a decode step: success, a typed error, or the explicit
out-of-bounds/panic branch (a Go slice-bounds trap). -/
inductive PResult (α : Type) : Type where
  | ok : α → PResult α
  | err : Err → PResult α
  | trap : PResult α
  deriving DecidableEq, Repr

/-- Go's `interface{}` value of an entry: UTF-8 text (string), `uint32`,
or raw bytes for unsupported formats. -/
inductive SFOValue : Type where
  | vstr : List Nat → SFOValue
  | vint : Nat → SFOValue
  | vbytes : List Nat → SFOValue
  deriving DecidableEq, Repr

/-- Header of a PARAM.SFO file (`ParamSFOHeader`). -/
structure ParamSFOHeader : Type where
  version : Nat
  keyTableOffset : Nat
  dataTableOffset : Nat
  entryCount : Nat
  deriving DecidableEq, Repr

/-- Binary 16-byte index record (`rawEntry`). -/
structure RawEntry : Type where
  keyOffset : Nat
  dataFmt : Nat
  dataLen : Nat
  dataMax : Nat
  dataOff : Nat
  deriving DecidableEq, Repr

/-- A resolved entry (`ParamSFOEntry`). -/
structure ParamSFOEntry : Type where
  key : List Nat
  value : SFOValue
  dataFmt : Nat
  dataLen : Nat
  dataMax : Nat
  dataOff : Nat
  deriving DecidableEq, Repr

/-- A parsed PARAM.SFO file (`ParamSFO`). -/
structure ParamSFO : Type where
  header : ParamSFOHeader
  entries : List ParamSFOEntry
  deriving DecidableEq, Repr

/-- Field-wise decode of a 16-byte index record (`binary.Read` of
`rawEntry`): u16 key offset, u16 format, u32 length, u32 max, u32 offset. -/
def decodeRaw (bs : List Nat) : RawEntry :=
  { keyOffset := le16 (bs.take 2)
    dataFmt := le16 ((bs.drop 2).take 2)
    dataLen := le32 ((bs.drop 4).take 4)
    dataMax := le32 ((bs.drop 8).take 4)
    dataOff := le32 ((bs.drop 12).take 4) }

/-- Value formatting switch (ps3.go lines 176-197): UTF-8 tags truncate
at the first NUL, the int32 tag needs at least 4 bytes, anything else is
kept as raw bytes. -/
def formatValue (i : Nat) (fmt : Nat) (val : List Nat) : PResult SFOValue :=
  if fmt = FMT_UTF8_SPECIAL ∨ fmt = FMT_UTF8 then
    .ok (.vstr (match firstNulIdx val with
      | some j => val.take j
      | none => val))
  else if fmt = FMT_INT32 then
    if 4 ≤ val.length then .ok (.vint (le32 (val.take 4)))
    else .err (.invalidIntegerData i)
  else .ok (.vbytes val)

/-- Resolution of one raw entry against the tables (ps3.go lines 151-208).
`keyStart`/`valStart`/`valEnd` are Go `int` sums of non-negative values,
hence exact naturals.  The key slice `data[keyStart:]` and
`data[keyStart : keyStart+keyEnd]` cannot panic once `keyStart < len`
and the NUL index is found, so they are expressed with `drop`/`take`;
the value slice is guarded by the bounds check just as in the source. -/
def resolveEntry (data : List Nat) (ktOff dtOff i : Nat) (raw : RawEntry) :
    PResult ParamSFOEntry :=
  let keyStart := ktOff + raw.keyOffset
  if data.length ≤ keyStart then .err (.invalidKeyOffset i)
  else
    match firstNulIdx (data.drop keyStart) with
    | none => .err (.unterminatedKey i)
    | some keyEnd =>
      let key := bytesAt data keyStart keyEnd
      let valStart := dtOff + raw.dataOff
      let valEnd := valStart + raw.dataLen
      -- Go also checks `valStart < 0`, impossible over naturals.
      if data.length < valEnd then .err (.valueOutOfBounds i)
      else
        match sliceChk data valStart valEnd with
        | none => .trap
        | some val =>
          match formatValue i raw.dataFmt val with
          | .ok v => .ok ⟨key, v, raw.dataFmt, raw.dataLen, raw.dataMax, raw.dataOff⟩
          | .err e => .err e
          | .trap => .trap

/-- Resolution loop over all raw entries, in index order, stopping at the
first failure (ps3.go lines 150-209). -/
def resolveEntries (data : List Nat) (ktOff dtOff : Nat) :
    Nat → List RawEntry → PResult (List ParamSFOEntry)
  | _, [] => .ok []
  | i, raw :: rest =>
    match resolveEntry data ktOff dtOff i raw with
    | .ok e =>
      match resolveEntries data ktOff dtOff (i + 1) rest with
      | .ok es => .ok (e :: es)
      | .err er => .err er
      | .trap => .trap
    | .err er => .err er
    | .trap => .trap

/-- Index reading loop (ps3.go lines 136-147): `entryOffset := 20 + i*16`
in wrapping `uint32` arithmetic, bound check against `uint32(len(data))`,
then the 16-byte slice, whose panic case is the `trap` branch. -/
def readEntriesAux (data : List Nat) : Nat → Nat → PResult (List RawEntry)
  | 0, _ => .ok []
  | fuel + 1, i =>
    let entryOffset := (20 + i * 16) % u32
    if data.length % u32 < (entryOffset + 16) % u32 then .err (.truncatedIndex i)
    else
      match sliceChk data entryOffset ((entryOffset + 16) % u32) with
      | none => .trap
      | some bs =>
        match readEntriesAux data fuel (i + 1) with
        | .ok rest => .ok (decodeRaw bs :: rest)
        | .err e => .err e
        | .trap => .trap

/-- Reads `count` index records starting at offset 20. -/
def readEntries (data : List Nat) (count : Nat) : PResult (List RawEntry) :=
  readEntriesAux data count 0

/-- The full decoder `ParseParamSFO` (ps3.go lines 107-215).  Note that
the Go source allocates `rawEntries := make([]rawEntry, entryCount)` at
line 136, before the first index bound check inside the loop. -/
def parseParamSFO (data : List Nat) : PResult ParamSFO :=
  if data.length < 4 ∨ bytesAt data 0 4 ≠ MAGIC then .err .invalidMagic
  else if data.length < 20 then .err .truncatedHeader
  else
    let version := readU32 data 4
    let keyTableOffset := readU32 data 8
    let dataTableOffset := readU32 data 12
    let entryCount := readU32 data 16
    if data.length % u32 ≤ keyTableOffset ∨ data.length % u32 ≤ dataTableOffset then
      .err .offsetOutOfRange
    else
      match readEntries data entryCount with
      | .ok raws =>
        match resolveEntries data keyTableOffset dataTableOffset 0 raws with
        | .ok entries =>
          .ok ⟨⟨version, keyTableOffset, dataTableOffset, entryCount⟩, entries⟩
        | .err e => .err e
        | .trap => .trap
      | .err e => .err e
      | .trap => .trap

/-- Bytes of the key `"TITLE"`. -/
def TITLE_KEY : List Nat := [84, 73, 84, 76, 69]

/-- Bytes of the key `"TITLE_ID"`. -/
def TITLE_ID_KEY : List Nat := [84, 73, 84, 76, 69, 95, 73, 68]

/-- Bytes of the key `"CATEGORY"`. -/
def CATEGORY_KEY : List Nat := [67, 65, 84, 69, 71, 79, 82, 89]

/-- Loop shared by `GetTitle` and `GetTitleID` (ps3.go lines 44-65): the
first entry whose key matches *and* whose value is a string; an entry
with a matching key but a non-string value is skipped. -/
def firstStringFor (k : List Nat) : List ParamSFOEntry → List Nat
  | [] => []
  | e :: es =>
    if e.key = k then
      (match e.value with
        | .vstr s => s
        | _ => firstStringFor k es)
    else firstStringFor k es

/-- `GetTitle`. -/
def getTitle (p : ParamSFO) : List Nat := firstStringFor TITLE_KEY p.entries

/-- `GetTitleID`. -/
def getTitleID (p : ParamSFO) : List Nat := firstStringFor TITLE_ID_KEY p.entries

/-- `GetEntry` loop (ps3.go lines 68-75): first entry with the key; the
Go `(ParamSFOEntry{}, false)` miss case is `none`.  Only this accessor
exposes a found/not-found flag. -/
def getEntryAux (k : List Nat) : List ParamSFOEntry → Option ParamSFOEntry
  | [] => none
  | e :: es => if e.key = k then some e else getEntryAux k es

/-- `GetEntry`. -/
def getEntry (p : ParamSFO) (k : List Nat) : Option ParamSFOEntry :=
  getEntryAux k p.entries

/-- `GetString` (ps3.go lines 78-85): the first key match through
`GetEntry`, then the string type assertion, with `""` on any miss. -/
def getString (p : ParamSFO) (k : List Nat) : List Nat :=
  match getEntry p k with
  | some e =>
    (match e.value with
      | .vstr s => s
      | _ => [])
  | none => []

/-- `GetInt` (ps3.go lines 88-95): first key match, `uint32` assertion,
`0` on any miss. -/
def getInt (p : ParamSFO) (k : List Nat) : Nat :=
  match getEntry p k with
  | some e =>
    (match e.value with
      | .vint n => n
      | _ => 0)
  | none => 0

/-- Logical value fed to the fixture generator: the generator's `Entry.Value`
is a Go `interface{}` that its switch handles for `string` and `uint32`. -/
inductive GenValue : Type where
  | gstr : List Nat → GenValue
  | gint : Nat → GenValue
  deriving DecidableEq, Repr

/-- An entry handed to `generateParamSFO` (generator's `Entry`). -/
structure GenEntry : Type where
  key : List Nat
  value : GenValue
  dataFmt : Nat
  deriving DecidableEq, Repr

/-- Zero-padding of a table to a multiple of 4 bytes
(`for tbl.Len()%4 != 0 { tbl.WriteByte(0) }`). -/
def pad4 (tbl : List Nat) : List Nat :=
  tbl ++ List.replicate ((4 - tbl.length % 4) % 4) 0

/-- Key table of the generator: every key followed by a NUL terminator,
then the whole table padded to a multiple of 4. -/
def buildKeyTable (es : List GenEntry) : List Nat :=
  pad4 (es.foldl (fun tbl e => tbl ++ e.key ++ [0]) [])

/-- The generator's data-table loop (generate-test-games.go lines 254-289):
for each entry, record the current table length as the data offset, append
the encoded value (string + NUL, padded to 4; or 4 little-endian bytes),
and build the raw index record; `keyOffset` accumulates in `uint16`
arithmetic and the `uint32` fields wrap as in Go. -/
def genLoop : List GenEntry → List Nat → Nat → List RawEntry × List Nat
  | [], dt, _ => ([], dt)
  | e :: es, dt, keyOff =>
    let dataOffset := dt.length % u32
    let step : List Nat × Nat :=
      match e.value with
      | .gstr s => (pad4 (dt ++ s ++ [0]), (s.length + 1) % u32)
      | .gint n => (dt ++ putU32 n, 4)
    let raw : RawEntry :=
      ⟨keyOff, e.dataFmt, step.2, (step.2 + 16) % u32, dataOffset⟩
    let rest := genLoop es step.1 ((keyOff + (e.key.length + 1) % u16) % u16)
    (raw :: rest.1, rest.2)

/-- Serialization of a raw index record (`binary.Write` of the 16-byte
struct). -/
def putRaw (r : RawEntry) : List Nat :=
  putU16 r.keyOffset ++ putU16 r.dataFmt ++ putU32 r.dataLen ++
    putU32 r.dataMax ++ putU32 r.dataOff

/-- `generateParamSFO` (generate-test-games.go lines 202-313) for an
arbitrary entry list: magic, version `0x101`, table offsets, entry count,
then index records, key table and data table.  In the source the entry
list itself is synthesized from a game tuple (`gameEntries` below). -/
def generateParamSFO (es : List GenEntry) : List Nat :=
  let keyTable := buildKeyTable es
  let keyTableOffset := (20 + es.length * 16) % u32
  let dataTableOffset := (keyTableOffset + keyTable.length % u32) % u32
  let gen := genLoop es [] 0
  MAGIC ++ putU32 257 ++ putU32 keyTableOffset ++ putU32 dataTableOffset ++
    putU32 (es.length % u32) ++ (gen.1.map putRaw).flatten ++ keyTable ++ gen.2

/-- Entry list the generator builds for a game tuple (generate-test-games.go
lines 210-224).  `npComm` stands for the `NP_COMMUNICATION_ID` string that
the source fills with a random `NPWR%05d_00`. -/
def gameEntries (title titleID category appVer npComm : List Nat) : List GenEntry :=
  [⟨[65, 80, 80, 95, 86, 69, 82], .gstr appVer, FMT_UTF8⟩,
   ⟨[65, 84, 84, 82, 73, 66, 85, 84, 69], .gint 0, FMT_INT32⟩,
   ⟨[66, 79, 79, 84, 65, 66, 76, 69], .gint 1, FMT_INT32⟩,
   ⟨CATEGORY_KEY, .gstr category, FMT_UTF8⟩,
   ⟨[76, 73, 67, 69, 78, 83, 69],
    .gstr [84, 104, 105, 115, 32, 105, 115, 32, 97, 32, 102, 97, 107, 101, 32,
           116, 101, 115, 116, 32, 103, 97, 109, 101, 32, 102, 111, 114, 32,
           100, 101, 118, 101, 108, 111, 112, 109, 101, 110, 116, 32, 112,
           117, 114, 112, 111, 115, 101, 115, 32, 111, 110, 108, 121, 46],
    FMT_UTF8⟩,
   ⟨[78, 80, 95, 67, 79, 77, 77, 85, 78, 73, 67, 65, 84, 73, 79, 78, 95, 73, 68],
    .gstr npComm, FMT_UTF8⟩,
   ⟨[80, 65, 82, 69, 78, 84, 65, 76, 95, 76, 69, 86, 69, 76], .gint 1, FMT_INT32⟩,
   ⟨[80, 83, 51, 95, 83, 89, 83, 84, 69, 77, 95, 86, 69, 82],
    .gstr [48, 51, 46, 53, 53, 48, 48], FMT_UTF8⟩,
   ⟨[82, 69, 83, 79, 76, 85, 84, 73, 79, 78], .gint 63, FMT_INT32⟩,
   ⟨[83, 79, 85, 78, 68, 95, 70, 79, 82, 77, 65, 84], .gint 279, FMT_INT32⟩,
   ⟨TITLE_KEY, .gstr title, FMT_UTF8⟩,
   ⟨TITLE_ID_KEY, .gstr titleID, FMT_UTF8⟩,
   ⟨[86, 69, 82, 83, 73, 79, 78], .gstr appVer, FMT_UTF8⟩]

/-! Derived layout functions used to reason about the generator's output,
plus the well-formedness side conditions of a representable document. -/

/-- Declared data length of one generated value: string length plus NUL
terminator, or 4 for an integer. -/
def encLen : GenValue → Nat
  | .gstr s => s.length + 1
  | .gint _ => 4

/-- Data-table bytes contributed by one value once the running table is
4-aligned: the value bytes (plus NUL and alignment padding for strings). -/
def chunk : GenValue → List Nat
  | .gstr s => s ++ [0] ++ List.replicate ((4 - (s.length + 1) % 4) % 4) 0
  | .gint n => putU32 n

/-- Concatenated data-table bytes of an entry list. -/
def chunks (es : List GenEntry) : List Nat :=
  (es.map (fun e => chunk e.value)).flatten

/-- Unpadded key-table bytes: each key followed by its NUL terminator. -/
def keyBlock (es : List GenEntry) : List Nat :=
  (es.map (fun e => e.key ++ [0])).flatten

/-- Total key-table byte count before padding. -/
def keySize (es : List GenEntry) : Nat :=
  (es.map (fun e => e.key.length + 1)).sum

/-- Index records of the generator written without wrap-around, starting
from a data offset and key offset; equal to the generated ones whenever
the sizes fit the fixed-width fields. -/
def cleanRaws : List GenEntry → Nat → Nat → List RawEntry
  | [], _, _ => []
  | e :: es, dOff, kOff =>
    ⟨kOff, e.dataFmt, encLen e.value, (encLen e.value + 16) % u32, dOff⟩ ::
      cleanRaws es (dOff + (chunk e.value).length) (kOff + e.key.length + 1)

/-- The decoded form of a generated value. -/
def genSFOValue : GenValue → SFOValue
  | .gstr s => .vstr s
  | .gint n => .vint n

/-- Entries the decoder is expected to produce for a generated document. -/
def expEntries : List GenEntry → Nat → Nat → List ParamSFOEntry
  | [], _, _ => []
  | e :: es, dOff, kOff =>
    ⟨e.key, genSFOValue e.value, e.dataFmt, encLen e.value,
      (encLen e.value + 16) % u32, dOff⟩ ::
      expEntries es (dOff + (chunk e.value).length) (kOff + e.key.length + 1)

/-- Well-formedness of a generated value: the format tag matches the
value's shape, text bytes are NUL-free `uint8` values, integers fit in 32
bits. -/
def valueWF : Nat → GenValue → Prop
  | fmt, .gstr s => (fmt = FMT_UTF8_SPECIAL ∨ fmt = FMT_UTF8) ∧ ∀ b ∈ s, b < 256 ∧ b ≠ 0
  | fmt, .gint n => fmt = FMT_INT32 ∧ n < u32

instance (f : Nat) (v : GenValue) : Decidable (valueWF f v) :=
  match v with
  | .gstr s =>
    inferInstanceAs (Decidable ((f = FMT_UTF8_SPECIAL ∨ f = FMT_UTF8) ∧ ∀ b ∈ s, b < 256 ∧ b ≠ 0))
  | .gint n => inferInstanceAs (Decidable (f = FMT_INT32 ∧ n < u32))

/-- Well-formedness of a generated entry: NUL-free `uint8` key bytes and
a well-formed value. -/
def entryWF (e : GenEntry) : Prop :=
  (∀ b ∈ e.key, b < 256 ∧ b ≠ 0) ∧ valueWF e.dataFmt e.value

instance (e : GenEntry) : Decidable (entryWF e) :=
  inferInstanceAs (Decidable (_ ∧ _))

/-- Text lookup on a decode result; `[]` when decode failed.  Harness for
the spec's `get_text` applied to `decode(encode(...))`. -/
def textOf (r : PResult ParamSFO) (k : List Nat) : List Nat :=
  match r with
  | .ok doc => getString doc k
  | _ => []

/-! Concrete inputs used by the scenario statements and counterexamples. -/

/-- Bytes of `"Sample Title"`. -/
def sampleTitle : List Nat := [83, 97, 109, 112, 108, 101, 32, 84, 105, 116, 108, 101]

/-- The spec's two-entry scenario: TITLE = "Sample Title", CATEGORY = "DG". -/
def scenarioEntries : List GenEntry :=
  [⟨TITLE_KEY, .gstr sampleTitle, FMT_UTF8⟩,
   ⟨CATEGORY_KEY, .gstr [68, 71], FMT_UTF8⟩]

/-- Whether a value is a string (the Go `.(string)` assertion succeeding). -/
def isVstr : SFOValue → Bool
  | .vstr _ => true
  | _ => false

/-- The string carried by a value, `""` otherwise. -/
def strOfValue : SFOValue → List Nat
  | .vstr s => s
  | _ => []

/-- The integer carried by a value, `0` otherwise. -/
def intOfValue : SFOValue → Nat
  | .vint n => n
  | _ => 0

/-- A 24-byte buffer with valid magic and header, table offsets 20, and
entry count `0xFFFFFFFF`: the Go parser allocates a 64 GiB `rawEntries`
slice for it before any index bound check. -/
def hugeCountBuf : List Nat :=
  MAGIC ++ putU32 257 ++ putU32 20 ++ putU32 20 ++ putU32 4294967295 ++
    [0, 0, 0, 0]

/-- A 20-byte zero-entry file whose two table offsets equal the buffer
length. -/
def emptyFileBuf : List Nat :=
  MAGIC ++ putU32 257 ++ putU32 20 ++ putU32 20 ++ putU32 0

/-- A 40-byte buffer with one index record whose key is unterminated
(no NUL after the key table start) and whose value range (length 100)
exceeds the buffer. -/
def badKeyBadRangeBuf : List Nat :=
  MAGIC ++ putU32 257 ++ putU32 36 ++ putU32 36 ++ putU32 1 ++
    putRaw ⟨0, 516, 100, 0, 0⟩ ++ [65, 65, 65, 65]

/-- A 40-byte buffer with one index record whose key resolves (`"K"`)
but whose value range (length 100) exceeds the buffer. -/
def goodKeyBadRangeBuf : List Nat :=
  MAGIC ++ putU32 257 ++ putU32 36 ++ putU32 36 ++ putU32 1 ++
    putRaw ⟨0, 516, 100, 0, 0⟩ ++ [75, 0, 65, 65]

/-- A document with two `TITLE` entries: the first holds an integer, the
second a string. -/
def dupTitleDoc : ParamSFO :=
  ⟨⟨257, 0, 0, 2⟩,
   [⟨TITLE_KEY, .vint 5, FMT_INT32, 4, 4, 0⟩,
    ⟨TITLE_KEY, .vstr [88], FMT_UTF8, 2, 2, 4⟩]⟩

/-- A document storing an empty string under the key `"K"`. -/
def storedEmptyDoc : ParamSFO :=
  ⟨⟨257, 0, 0, 1⟩, [⟨[75], .vstr [], FMT_UTF8, 1, 1, 0⟩]⟩

/-- A document with no entries. -/
def noEntryDoc : ParamSFO := ⟨⟨257, 0, 0, 0⟩, []⟩

/-! Basic byte-level lemmas. -/

theorem putU32_length (n : Nat) : (putU32 n).length = 4 := rfl

theorem putU16_length (n : Nat) : (putU16 n).length = 2 := rfl

theorem putRaw_length (r : RawEntry) : (putRaw r).length = 16 := by
  simp [putRaw, putU16, putU32]

theorem mem_putU32_lt (n : Nat) : ∀ b ∈ putU32 n, b < 256 := by
  simp only [putU32, List.mem_cons, List.not_mem_nil, or_false]
  rintro b (rfl | rfl | rfl | rfl) <;> omega

theorem mem_putU16_lt (n : Nat) : ∀ b ∈ putU16 n, b < 256 := by
  simp only [putU16, List.mem_cons, List.not_mem_nil, or_false]
  rintro b (rfl | rfl) <;> omega

theorem mem_putRaw_lt (r : RawEntry) : ∀ b ∈ putRaw r, b < 256 := by
  intro b hb
  simp only [putRaw, List.mem_append] at hb
  rcases hb with ((((h | h) | h) | h) | h)
  exacts [mem_putU16_lt _ _ h, mem_putU16_lt _ _ h, mem_putU32_lt _ _ h,
    mem_putU32_lt _ _ h, mem_putU32_lt _ _ h]

theorem mapMod_eq_self {l : List Nat} (h : ∀ b ∈ l, b < 256) :
    l.map (fun b => b % 256) = l := by
  induction l with
  | nil => rfl
  | cons a l ih =>
    simp only [List.map_cons]
    rw [Nat.mod_eq_of_lt (h a (by simp)), ih (fun b hb => h b (by simp [hb]))]

theorem le32_putU32 (n : Nat) : le32 (putU32 n) = n % u32 := by
  simp only [le32, putU32, List.getD_cons_zero, List.getD_cons_succ, u32]
  omega

theorem le16_putU16 (n : Nat) : le16 (putU16 n) = n % u16 := by
  simp only [le16, putU16, List.getD_cons_zero, List.getD_cons_succ, u16]
  omega

theorem le32_lt (bs : List Nat) : le32 bs < u32 := by
  simp only [le32, u32]
  have h0 : bs.getD 0 0 % 256 < 256 := Nat.mod_lt _ (by norm_num)
  have h1 : bs.getD 1 0 % 256 < 256 := Nat.mod_lt _ (by norm_num)
  have h2 : bs.getD 2 0 % 256 < 256 := Nat.mod_lt _ (by norm_num)
  have h3 : bs.getD 3 0 % 256 < 256 := Nat.mod_lt _ (by norm_num)
  omega

theorem bytesAt_of_drop {data rest : List Nat} {a : Nat} (h : data.drop a = rest)
    (n : Nat) : bytesAt data a n = (rest.take n).map (fun b => b % 256) := by
  simp [bytesAt, h]

theorem sliceChk_of_le {data : List Nat} {a b : Nat} (hab : a ≤ b)
    (hb : b ≤ data.length) : sliceChk data a b = some (bytesAt data a (b - a)) := by
  simp [sliceChk, hab, hb]

theorem take_append_of_length {xs ys : List Nat} {n : Nat} (h : xs.length = n) :
    (xs ++ ys).take n = xs := by
  subst h; exact List.take_left xs ys

theorem drop_append_of_length {xs ys : List Nat} {n : Nat} (h : xs.length = n) :
    (xs ++ ys).drop n = ys := by
  subst h; exact List.drop_left xs ys

theorem readU32_append (xs ys : List Nat) (n : Nat) :
    readU32 (xs ++ (putU32 n ++ ys)) xs.length = n % u32 := by
  unfold readU32
  rw [bytesAt_of_drop (drop_append_of_length rfl) 4,
    take_append_of_length (putU32_length n), mapMod_eq_self (mem_putU32_lt n),
    le32_putU32]

theorem firstNulIdx_append_nul {k : List Nat} (h : ∀ b ∈ k, b % 256 ≠ 0)
    (rest : List Nat) : firstNulIdx (k ++ 0 :: rest) = some k.length := by
  induction k with
  | nil => simp [firstNulIdx]
  | cons a k ih =>
    have ha : ¬(a % 256 = 0) := h a (by simp)
    simp [firstNulIdx, ha, ih (fun b hb => h b (by simp [hb]))]

theorem firstNulIdx_match_eq_takeWhile (l : List Nat) :
    (match firstNulIdx l with
      | some j => l.take j
      | none => l) = l.takeWhile (fun b => !(b % 256 == 0)) := by
  induction l with
  | nil => rfl
  | cons a l ih =>
    by_cases ha : a % 256 = 0
    · simp [firstNulIdx, ha, List.takeWhile_cons]
    · cases hfl : firstNulIdx l with
      | none =>
        rw [hfl] at ih
        simp [firstNulIdx, ha, List.takeWhile_cons, hfl, ← ih]
      | some j =>
        rw [hfl] at ih
        simp [firstNulIdx, ha, List.takeWhile_cons, hfl, ← ih]

/-! Decomposition of the generator's output. -/

theorem chunks_cons (e : GenEntry) (es : List GenEntry) :
    chunks (e :: es) = chunk e.value ++ chunks es := by
  simp [chunks]

theorem keyBlock_cons (e : GenEntry) (es : List GenEntry) :
    keyBlock (e :: es) = e.key ++ [0] ++ keyBlock es := by
  simp [keyBlock]

theorem keySize_cons (e : GenEntry) (es : List GenEntry) :
    keySize (e :: es) = e.key.length + 1 + keySize es := by
  simp [keySize]

theorem keyBlock_length (es : List GenEntry) : (keyBlock es).length = keySize es := by
  induction es with
  | nil => rfl
  | cons e es ih => simp [keyBlock_cons, keySize_cons, ih]; omega

theorem pad4_of_aligned {dt : List Nat} (x : List Nat) (h : dt.length % 4 = 0) :
    pad4 (dt ++ x) = dt ++ pad4 x := by
  simp only [pad4, List.length_append, List.append_assoc]
  congr 3
  omega

theorem chunk_gstr (s : List Nat) :
    chunk (.gstr s) = pad4 (s ++ [0]) := by
  simp [chunk, pad4]

theorem chunk_length_aligned (v : GenValue) : (chunk v).length % 4 = 0 := by
  cases v with
  | gstr s => simp [chunk]; omega
  | gint n => simp [chunk, putU32]

theorem encLen_le_chunk_length (v : GenValue) : encLen v ≤ (chunk v).length := by
  cases v with
  | gstr s => simp [chunk, encLen]
  | gint n => simp [chunk, encLen, putU32]

theorem chunk_length_pos (v : GenValue) : 0 < (chunk v).length := by
  have h := encLen_le_chunk_length v
  have h2 : 1 ≤ encLen v := by cases v <;> simp [encLen]
  omega

theorem genLoop_clean (es : List GenEntry) (dt : List Nat) (k : Nat)
    (halign : dt.length % 4 = 0)
    (hk : k + keySize es < u16)
    (hd : dt.length + (chunks es).length < u32) :
    genLoop es dt k = (cleanRaws es dt.length k, dt ++ chunks es) := by
  induction es generalizing dt k with
  | nil => simp [genLoop, cleanRaws, chunks]
  | cons e es ih =>
    have hkey1 : e.key.length + 1 < u16 := by
      rw [keySize_cons] at hk; omega
    have hkmod : (e.key.length + 1) % u16 = e.key.length + 1 :=
      Nat.mod_eq_of_lt hkey1
    have hkmod2 : (k + (e.key.length + 1)) % u16 = k + (e.key.length + 1) := by
      apply Nat.mod_eq_of_lt
      rw [keySize_cons] at hk; omega
    have hdtlt : dt.length < u32 := by
      rw [chunks_cons] at hd; omega
    have hchunklt : (chunk e.value).length < u32 := by
      rw [chunks_cons] at hd
      simp only [List.length_append] at hd; omega
    have henclt : encLen e.value < u32 :=
      Nat.lt_of_le_of_lt (encLen_le_chunk_length e.value) hchunklt
    cases hv : e.value with
    | gstr s =>
      have hslen : (s.length + 1) % u32 = s.length + 1 := by
        apply Nat.mod_eq_of_lt
        rw [hv] at henclt
        simpa [encLen] using henclt
      simp only [genLoop, hv, hslen, hkmod, hkmod2,
        Nat.mod_eq_of_lt hdtlt]
      rw [show dt ++ s ++ [0] = dt ++ (s ++ [0]) by simp,
        pad4_of_aligned (s ++ [0]) halign, ← chunk_gstr]
      rw [ih (dt ++ chunk (.gstr s)) (k + (e.key.length + 1))
        (by simp only [List.length_append]
            have := chunk_length_aligned (GenValue.gstr s); omega)
        (by rw [keySize_cons] at hk; omega)
        (by rw [chunks_cons, hv] at hd; simp only [List.length_append] at hd ⊢; omega)]
      simp only [cleanRaws, chunks_cons, hv, encLen, List.length_append,
        List.append_assoc, Prod.mk.injEq]
      trivial
    | gint n =>
      simp only [genLoop, hv, hkmod, hkmod2, Nat.mod_eq_of_lt hdtlt]
      have hput : dt ++ putU32 n = dt ++ chunk (.gint n) := by simp [chunk]
      rw [hput,
        ih (dt ++ chunk (.gint n)) (k + (e.key.length + 1))
        (by simp only [List.length_append]
            have := chunk_length_aligned (GenValue.gint n); omega)
        (by rw [keySize_cons] at hk; omega)
        (by rw [chunks_cons, hv] at hd; simp only [List.length_append] at hd ⊢; omega)]
      simp only [cleanRaws, chunks_cons, hv, encLen, List.length_append,
        List.append_assoc, Prod.mk.injEq]
      trivial

theorem foldl_keyTable (es : List GenEntry) (init : List Nat) :
    es.foldl (fun tbl e => tbl ++ e.key ++ [0]) init = init ++ keyBlock es := by
  induction es generalizing init with
  | nil => simp [keyBlock]
  | cons e es ih =>
    rw [List.foldl_cons, ih, keyBlock_cons]
    simp [List.append_assoc]

theorem buildKeyTable_eq (es : List GenEntry) :
    buildKeyTable es =
      keyBlock es ++ List.replicate ((4 - keySize es % 4) % 4) 0 := by
  rw [buildKeyTable, foldl_keyTable]
  simp [pad4, keyBlock_length]

/-! Index-record serialization round trip and the index-reading loop on a
generated buffer. -/

theorem decodeRaw_putRaw (r : RawEntry) :
    decodeRaw (putRaw r) =
      ⟨r.keyOffset % u16, r.dataFmt % u16, r.dataLen % u32, r.dataMax % u32,
        r.dataOff % u32⟩ := by
  simp only [putRaw, putU16, putU32, List.cons_append, List.nil_append]
  simp only [decodeRaw, le16, le32]
  norm_num [List.take_succ_cons, List.drop_succ_cons, List.getD_cons_zero,
    List.getD_cons_succ]
  refine ⟨?_, ?_, ?_, ?_, ?_⟩ <;> simp [u16, u32] <;> omega

theorem readEntriesAux_ok (data : List Nat) (hlen : data.length < u32) :
    ∀ (raws : List RawEntry) (i : Nat) (tail : List Nat),
      data.drop (20 + 16 * i) = (raws.map putRaw).flatten ++ tail →
      20 + 16 * (i + raws.length) ≤ data.length →
      readEntriesAux data raws.length i =
        .ok (raws.map (fun r => decodeRaw (putRaw r))) := by
  intro raws
  induction raws with
  | nil => intro i tail hdrop hbound; simp [readEntriesAux]
  | cons r rs ih =>
    intro i tail hdrop hbound
    have hstep : 20 + 16 * i + 16 ≤ data.length := by
      simp only [List.length_cons] at hbound; omega
    have hoff : (20 + i * 16) % u32 = 20 + 16 * i := by
      rw [Nat.mod_eq_of_lt (by omega)]; omega
    have hoff2 : (20 + 16 * i + 16) % u32 = 20 + 16 * i + 16 :=
      Nat.mod_eq_of_lt (by omega)
    have hlenmod : data.length % u32 = data.length := Nat.mod_eq_of_lt hlen
    have hdrop1 : data.drop (20 + 16 * i) =
        putRaw r ++ ((rs.map putRaw).flatten ++ tail) := by
      rw [hdrop]; simp [List.append_assoc]
    have hslice : sliceChk data (20 + 16 * i) (20 + 16 * i + 16) =
        some (putRaw r) := by
      rw [sliceChk_of_le (by omega) hstep]
      congr 1
      rw [bytesAt_of_drop hdrop1]
      have h16 : 20 + 16 * i + 16 - (20 + 16 * i) = 16 := by omega
      rw [h16, take_append_of_length (putRaw_length r),
        mapMod_eq_self (mem_putRaw_lt r)]
    have hdrop2 : data.drop (20 + 16 * (i + 1)) = (rs.map putRaw).flatten ++ tail := by
      have harr : 20 + 16 * (i + 1) = (20 + 16 * i) + 16 := by omega
      rw [harr, ← List.drop_drop, hdrop1, drop_append_of_length (putRaw_length r)]
    have hrec := ih (i + 1) tail hdrop2
      (by simp only [List.length_cons] at hbound; omega)
    show readEntriesAux data (rs.length + 1) i = _
    simp only [readEntriesAux, hoff, hoff2, hlenmod]
    rw [if_neg (by omega)]
    rw [hslice, hrec]
    simp

/-! The resolution loop on a generated buffer. -/

theorem resolveEntries_ok (data : List Nat) (ktOff dtOff : Nat) :
    ∀ (es : List GenEntry) (i kOff dOff : Nat) (u : List Nat),
      (∀ e ∈ es, entryWF e) →
      data.drop (ktOff + kOff) = keyBlock es ++ u →
      data.drop (dtOff + dOff) = chunks es →
      resolveEntries data ktOff dtOff i (cleanRaws es dOff kOff) =
        .ok (expEntries es dOff kOff) := by
  intro es
  induction es with
  | nil => intro i kOff dOff u hwf hK hD; simp [cleanRaws, expEntries, resolveEntries]
  | cons e es ih =>
    intro i kOff dOff u hwf hK hD
    have hewf : entryWF e := hwf e (by simp)
    have hkeyBytes : ∀ b ∈ e.key, b < 256 := fun b hb => (hewf.1 b hb).1
    have hkeyNul : ∀ b ∈ e.key, b % 256 ≠ 0 := by
      intro b hb
      rw [Nat.mod_eq_of_lt (hkeyBytes b hb)]
      exact (hewf.1 b hb).2
    have hK1 : data.drop (ktOff + kOff) = e.key ++ (0 :: (keyBlock es ++ u)) := by
      rw [hK, keyBlock_cons]; simp
    have hkeyStartLt : ktOff + kOff < data.length := by
      have h1 := congrArg List.length hK1
      rw [List.length_drop] at h1
      simp only [List.length_append, List.length_cons] at h1
      omega
    have hnul : firstNulIdx (data.drop (ktOff + kOff)) = some e.key.length := by
      rw [hK1]
      exact firstNulIdx_append_nul hkeyNul _
    have hkeyEq : bytesAt data (ktOff + kOff) e.key.length = e.key := by
      rw [bytesAt_of_drop hK1, take_append_of_length rfl, mapMod_eq_self hkeyBytes]
    have hD1 : data.drop (dtOff + dOff) = chunk e.value ++ chunks es := by
      rw [hD, chunks_cons]
    have hdataLt : dtOff + dOff < data.length := by
      have h1 := congrArg List.length hD1
      rw [List.length_drop] at h1
      simp only [List.length_append] at h1
      have := chunk_length_pos e.value
      omega
    have hlenEq : data.length - (dtOff + dOff) =
        (chunk e.value).length + (chunks es).length := by
      have h1 := congrArg List.length hD1
      rw [List.length_drop] at h1
      simpa [List.length_append] using h1
    have hvalEnd : dtOff + dOff + encLen e.value ≤ data.length := by
      have := encLen_le_chunk_length e.value
      omega
    have hsub : dtOff + dOff + encLen e.value - (dtOff + dOff) = encLen e.value := by
      omega
    have hresolve : resolveEntry data ktOff dtOff i
        ⟨kOff, e.dataFmt, encLen e.value, (encLen e.value + 16) % u32, dOff⟩ =
        .ok ⟨e.key, genSFOValue e.value, e.dataFmt, encLen e.value,
          (encLen e.value + 16) % u32, dOff⟩ := by
      simp only [resolveEntry]
      rw [if_neg (by omega), hnul]
      simp only
      rw [if_neg (by omega),
        sliceChk_of_le (by omega) (by omega), hsub, hkeyEq]
      cases hv : e.value with
      | gstr s =>
        have hswf := hewf.2
        rw [hv] at hswf
        have hfmt : e.dataFmt = FMT_UTF8_SPECIAL ∨ e.dataFmt = FMT_UTF8 := hswf.1
        have hsBytes : ∀ b ∈ s ++ [0], b < 256 := by
          intro b hb
          rcases List.mem_append.mp hb with h | h
          · exact (hswf.2 b h).1
          · simp at h; omega
        have hsNul : ∀ b ∈ s, b % 256 ≠ 0 := by
          intro b hb
          rw [Nat.mod_eq_of_lt ((hswf.2 b hb).1)]
          exact (hswf.2 b hb).2
        have htake : (chunk (GenValue.gstr s) ++ chunks es).take (encLen (GenValue.gstr s)) =
            s ++ [0] := by
          have hass : chunk (GenValue.gstr s) ++ chunks es =
              (s ++ [0]) ++ (List.replicate ((4 - (s.length + 1) % 4) % 4) 0 ++ chunks es) := by
            simp [chunk, List.append_assoc]
          rw [hass]
          exact take_append_of_length (by simp [encLen])
        rw [bytesAt_of_drop hD1, hv, htake, mapMod_eq_self hsBytes]
        have hfv : formatValue i e.dataFmt (s ++ [0]) = .ok (.vstr s) := by
          simp only [formatValue, if_pos hfmt]
          have hnul2 : firstNulIdx (s ++ [0]) = some s.length := by
            have := firstNulIdx_append_nul hsNul ([] : List Nat)
            simpa using this
          rw [hnul2]
          simp [take_append_of_length rfl]
        simp [hfv, genSFOValue]
      | gint n =>
        have hswf := hewf.2
        rw [hv] at hswf
        have hfmt : e.dataFmt = FMT_INT32 := hswf.1
        have htake : (chunk (GenValue.gint n) ++ chunks es).take (encLen (GenValue.gint n)) =
            putU32 n := by
          have hlen4 : encLen (GenValue.gint n) = (putU32 n).length := by
            simp [encLen, putU32]
          rw [hlen4]
          exact take_append_of_length (by simp [chunk])
        rw [bytesAt_of_drop hD1, hv, htake, mapMod_eq_self (mem_putU32_lt n)]
        have hfv : formatValue i e.dataFmt (putU32 n) = .ok (.vint n) := by
          rw [hfmt]
          have hred : formatValue i FMT_INT32 (putU32 n) =
              (if 4 ≤ (putU32 n).length then
                PResult.ok (SFOValue.vint (le32 ((putU32 n).take 4)))
              else .err (.invalidIntegerData i)) := rfl
          rw [hred, if_pos (by simp [putU32]),
            List.take_of_length_le (by simp [putU32]), le32_putU32,
            Nat.mod_eq_of_lt hswf.2]
        simp [hfv, genSFOValue]
    have hK2 : data.drop (ktOff + (kOff + e.key.length + 1)) = keyBlock es ++ u := by
      have harr : ktOff + (kOff + e.key.length + 1) =
          (ktOff + kOff) + (e.key.length + 1) := by omega
      rw [harr, ← List.drop_drop, hK1]
      have hass : e.key ++ (0 :: (keyBlock es ++ u)) =
          (e.key ++ [0]) ++ (keyBlock es ++ u) := by simp
      rw [hass, drop_append_of_length (by simp)]
    have hD2 : data.drop (dtOff + (dOff + (chunk e.value).length)) = chunks es := by
      have harr : dtOff + (dOff + (chunk e.value).length) =
          (dtOff + dOff) + (chunk e.value).length := by omega
      rw [harr, ← List.drop_drop, hD1, drop_append_of_length rfl]
    have hrec := ih (i + 1) (kOff + e.key.length + 1) (dOff + (chunk e.value).length) u
      (fun x hx => hwf x (by simp [hx])) hK2 hD2
    simp only [cleanRaws, expEntries, resolveEntries]
    rw [hresolve, hrec]

/-! Bridging lemmas for the whole-buffer round trip. -/

theorem cleanRaws_length (es : List GenEntry) :
    ∀ dOff kOff, (cleanRaws es dOff kOff).length = es.length := by
  induction es with
  | nil => intro dOff kOff; rfl
  | cons e es ih => intro dOff kOff; simp [cleanRaws, ih]

theorem flatten_map_putRaw_length (rs : List RawEntry) :
    ((rs.map putRaw).flatten).length = 16 * rs.length := by
  induction rs with
  | nil => rfl
  | cons r rs ih => simp [ih, putRaw_length]; omega

theorem expEntries_proj (es : List GenEntry) :
    ∀ dOff kOff,
      (expEntries es dOff kOff).map (fun e => (e.key, e.dataFmt, e.value)) =
        es.map (fun e => (e.key, e.dataFmt, genSFOValue e.value)) := by
  induction es with
  | nil => intro dOff kOff; rfl
  | cons e es ih => intro dOff kOff; simp [expEntries, ih]

theorem entryWF_fmt_lt {e : GenEntry} (h : entryWF e) : e.dataFmt < u16 := by
  have h2 := h.2
  cases hv : e.value with
  | gstr s =>
    rw [hv] at h2
    rcases h2.1 with hf | hf <;> rw [hf] <;> simp [FMT_UTF8_SPECIAL, FMT_UTF8, u16]
  | gint n =>
    rw [hv] at h2
    rw [h2.1]; simp [FMT_INT32, u16]

theorem keySize_pos {es : List GenEntry} (h : es ≠ []) : 1 ≤ keySize es := by
  cases es with
  | nil => exact absurd rfl h
  | cons e es => rw [keySize_cons]; omega

theorem chunks_length_pos {es : List GenEntry} (h : es ≠ []) :
    1 ≤ (chunks es).length := by
  cases es with
  | nil => exact absurd rfl h
  | cons e es =>
    rw [chunks_cons]
    have := chunk_length_pos e.value
    simp only [List.length_append]
    omega

theorem map_decode_cleanRaws (es : List GenEntry) :
    ∀ dOff kOff,
      (∀ e ∈ es, entryWF e) →
      kOff + keySize es < u16 →
      dOff + (chunks es).length < u32 →
      (cleanRaws es dOff kOff).map (fun r => decodeRaw (putRaw r)) =
        cleanRaws es dOff kOff := by
  induction es with
  | nil => intro dOff kOff _ _ _; rfl
  | cons e es ih =>
    intro dOff kOff hwf hk hd
    have hewf : entryWF e := hwf e (by simp)
    rw [keySize_cons] at hk
    rw [chunks_cons] at hd
    simp only [List.length_append] at hd
    have henc : encLen e.value ≤ (chunk e.value).length := encLen_le_chunk_length e.value
    simp only [cleanRaws, List.map_cons]
    rw [ih (dOff + (chunk e.value).length) (kOff + e.key.length + 1)
        (fun x hx => hwf x (by simp [hx])) (by omega) (by omega),
      decodeRaw_putRaw]
    simp only [List.cons.injEq, RawEntry.mk.injEq]
    refine ⟨⟨?_, ?_, ?_, ?_, ?_⟩, trivial⟩
    · exact Nat.mod_eq_of_lt (by omega)
    · exact Nat.mod_eq_of_lt (entryWF_fmt_lt hewf)
    · exact Nat.mod_eq_of_lt (by omega)
    · exact Nat.mod_eq_of_lt (Nat.mod_lt _ (by norm_num [u32]))
    · exact Nat.mod_eq_of_lt (by omega)

theorem genLoop_raws_length (es : List GenEntry) :
    ∀ dt k, (genLoop es dt k).1.length = es.length := by
  induction es with
  | nil => intro dt k; rfl
  | cons e es ih =>
    intro dt k
    cases hv : e.value <;> simp [genLoop, hv, ih]

theorem genLoop_table_length (es : List GenEntry) :
    ∀ dt k, dt.length % 4 = 0 →
      (genLoop es dt k).2.length = dt.length + (chunks es).length := by
  induction es with
  | nil => intro dt k h; simp [genLoop, chunks]
  | cons e es ih =>
    intro dt k h
    cases hv : e.value with
    | gstr s =>
      have hstep : (pad4 (dt ++ s ++ [0])).length = dt.length + (chunk (.gstr s)).length := by
        simp only [pad4, chunk, List.length_append, List.length_cons,
          List.length_replicate, List.length_nil]
        omega
      have halign : (pad4 (dt ++ s ++ [0])).length % 4 = 0 := by
        rw [hstep]
        have := chunk_length_aligned (GenValue.gstr s)
        omega
      simp only [genLoop, hv]
      rw [ih _ _ halign, hstep, chunks_cons, hv]
      simp only [List.length_append]
      omega
    | gint n =>
      have hstep : (dt ++ putU32 n).length = dt.length + (chunk (.gint n)).length := by
        simp [chunk, putU32]
      have halign : (dt ++ putU32 n).length % 4 = 0 := by
        rw [hstep]
        have := chunk_length_aligned (GenValue.gint n)
        omega
      simp only [genLoop, hv]
      rw [ih _ _ halign, hstep, chunks_cons, hv]
      simp only [List.length_append]
      omega

/-! The whole-buffer round trip for the fixture generator. -/

theorem parse_generateParamSFO (es : List GenEntry)
    (hne : es ≠ [])
    (hwf : ∀ e ∈ es, entryWF e)
    (hkey : keySize es < u16)
    (hlen : (generateParamSFO es).length < u32) :
    parseParamSFO (generateParamSFO es) =
      .ok ⟨⟨257, 20 + 16 * es.length,
            20 + 16 * es.length + (buildKeyTable es).length, es.length⟩,
        expEntries es 0 0⟩ := by
  have hover : (genLoop es [] 0).2.length = (chunks es).length := by
    simpa using genLoop_table_length es [] 0 (by simp)
  have hBlen0 : (generateParamSFO es).length =
      20 + 16 * es.length + (buildKeyTable es).length + (chunks es).length := by
    simp only [generateParamSFO, List.length_append]
    rw [flatten_map_putRaw_length, genLoop_raws_length, hover]
    simp [MAGIC, putU32]
  have hchunksLt : (chunks es).length < u32 := by omega
  have hKTpos : 1 ≤ (buildKeyTable es).length := by
    rw [buildKeyTable_eq]
    have := keySize_pos hne
    simp only [List.length_append, keyBlock_length]
    omega
  have hDTpos : 1 ≤ (chunks es).length := chunks_length_pos hne
  have hgen : genLoop es [] 0 = (cleanRaws es 0 0, chunks es) := by
    have h := genLoop_clean es [] 0 (by simp) (by simpa using hkey)
      (by simpa using hchunksLt)
    simpa using h
  have h1 : (20 + es.length * 16) % u32 = 20 + 16 * es.length := by
    rw [Nat.mod_eq_of_lt (by omega)]; omega
  have h2 : (buildKeyTable es).length % u32 = (buildKeyTable es).length :=
    Nat.mod_eq_of_lt (by omega)
  have h3 : (20 + 16 * es.length + (buildKeyTable es).length) % u32 =
      20 + 16 * es.length + (buildKeyTable es).length :=
    Nat.mod_eq_of_lt (by omega)
  have h4 : es.length % u32 = es.length := Nat.mod_eq_of_lt (by omega)
  have hshape : generateParamSFO es =
      MAGIC ++ (putU32 257 ++ (putU32 (20 + 16 * es.length) ++
        (putU32 (20 + 16 * es.length + (buildKeyTable es).length) ++
          (putU32 es.length ++
            (((cleanRaws es 0 0).map putRaw).flatten ++
              (buildKeyTable es ++ chunks es)))))) := by
    simp only [generateParamSFO, hgen]
    rw [h1, h2, h3, h4]
    simp [List.append_assoc]
  have readShape : ∀ (xs ys : List Nat) (m v : Nat),
      generateParamSFO es = xs ++ (putU32 v ++ ys) → xs.length = m →
      readU32 (generateParamSFO es) m = v % u32 := by
    intro xs ys m v hs hm
    rw [hs, ← hm, readU32_append]
  have hr4 : readU32 (generateParamSFO es) 4 = 257 := by
    rw [readShape MAGIC
      (putU32 (20 + 16 * es.length) ++
        (putU32 (20 + 16 * es.length + (buildKeyTable es).length) ++
          (putU32 es.length ++
            (((cleanRaws es 0 0).map putRaw).flatten ++
              (buildKeyTable es ++ chunks es))))) 4 257 (by rw [hshape]) rfl]
    exact Nat.mod_eq_of_lt (by norm_num [u32])
  have hr8 : readU32 (generateParamSFO es) 8 = 20 + 16 * es.length := by
    rw [readShape (MAGIC ++ putU32 257)
      (putU32 (20 + 16 * es.length + (buildKeyTable es).length) ++
        (putU32 es.length ++
          (((cleanRaws es 0 0).map putRaw).flatten ++
            (buildKeyTable es ++ chunks es)))) 8 (20 + 16 * es.length)
      (by rw [hshape]; simp [List.append_assoc]) rfl]
    exact Nat.mod_eq_of_lt (by omega)
  have hr12 : readU32 (generateParamSFO es) 12 =
      20 + 16 * es.length + (buildKeyTable es).length := by
    rw [readShape (MAGIC ++ putU32 257 ++ putU32 (20 + 16 * es.length))
      (putU32 es.length ++
        (((cleanRaws es 0 0).map putRaw).flatten ++
          (buildKeyTable es ++ chunks es))) 12
      (20 + 16 * es.length + (buildKeyTable es).length)
      (by rw [hshape]; simp [List.append_assoc]) rfl]
    exact Nat.mod_eq_of_lt (by omega)
  have hr16 : readU32 (generateParamSFO es) 16 = es.length := by
    rw [readShape (MAGIC ++ putU32 257 ++ putU32 (20 + 16 * es.length) ++
        putU32 (20 + 16 * es.length + (buildKeyTable es).length))
      (((cleanRaws es 0 0).map putRaw).flatten ++
        (buildKeyTable es ++ chunks es)) 16 es.length
      (by rw [hshape]; simp [List.append_assoc]) rfl]
    exact h4
  have hmagic : bytesAt (generateParamSFO es) 0 4 = MAGIC := by
    rw [bytesAt_of_drop (List.drop_zero _) 4, hshape,
      take_append_of_length (by decide : MAGIC.length = 4)]
    rfl
  have hdrop20 : (generateParamSFO es).drop 20 =
      ((cleanRaws es 0 0).map putRaw).flatten ++
        (buildKeyTable es ++ chunks es) := by
    have hsh2 : generateParamSFO es =
        (MAGIC ++ putU32 257 ++ putU32 (20 + 16 * es.length) ++
          putU32 (20 + 16 * es.length + (buildKeyTable es).length) ++
          putU32 es.length) ++
        (((cleanRaws es 0 0).map putRaw).flatten ++
          (buildKeyTable es ++ chunks es)) := by
      rw [hshape]; simp [List.append_assoc]
    rw [hsh2]
    exact drop_append_of_length rfl
  have hdropKT : (generateParamSFO es).drop (20 + 16 * es.length) =
      buildKeyTable es ++ chunks es := by
    have harr : (generateParamSFO es).drop (20 + 16 * es.length) =
        ((generateParamSFO es).drop 20).drop (16 * es.length) :=
      (List.drop_drop _ _ _).symm
    rw [harr, hdrop20]
    exact drop_append_of_length (by rw [flatten_map_putRaw_length, cleanRaws_length])
  have hdropDT : (generateParamSFO es).drop
      (20 + 16 * es.length + (buildKeyTable es).length) = chunks es := by
    have harr : (generateParamSFO es).drop
        (20 + 16 * es.length + (buildKeyTable es).length) =
        ((generateParamSFO es).drop (20 + 16 * es.length)).drop
          (buildKeyTable es).length :=
      (List.drop_drop _ _ _).symm
    rw [harr, hdropKT]
    exact drop_append_of_length rfl
  have hIdx : readEntriesAux (generateParamSFO es) es.length 0 =
      .ok (cleanRaws es 0 0) := by
    have hn := cleanRaws_length es 0 0
    rw [← hn]
    rw [readEntriesAux_ok (generateParamSFO es) hlen (cleanRaws es 0 0) 0
      (buildKeyTable es ++ chunks es) (by simpa using hdrop20)
      (by rw [hn]; omega)]
    rw [map_decode_cleanRaws es 0 0 hwf (by omega) (by omega)]
  have hResolve : resolveEntries (generateParamSFO es) (20 + 16 * es.length)
      (20 + 16 * es.length + (buildKeyTable es).length) 0 (cleanRaws es 0 0) =
      .ok (expEntries es 0 0) := by
    refine resolveEntries_ok (generateParamSFO es) (20 + 16 * es.length)
      (20 + 16 * es.length + (buildKeyTable es).length) es 0 0 0
      (List.replicate ((4 - keySize es % 4) % 4) 0 ++ chunks es) hwf ?_ ?_
    · rw [Nat.add_zero, hdropKT, buildKeyTable_eq]
      simp [List.append_assoc]
    · rw [Nat.add_zero, hdropDT]
  have hglen : ¬ ((generateParamSFO es).length < 4 ∨
      bytesAt (generateParamSFO es) 0 4 ≠ MAGIC) := by
    push_neg
    exact ⟨by omega, hmagic⟩
  have hg20 : ¬ (generateParamSFO es).length < 20 := by omega
  have hlenmod : (generateParamSFO es).length % u32 = (generateParamSFO es).length :=
    Nat.mod_eq_of_lt hlen
  have hgoff : ¬ ((generateParamSFO es).length % u32 ≤
        readU32 (generateParamSFO es) 8 ∨
      (generateParamSFO es).length % u32 ≤ readU32 (generateParamSFO es) 12) := by
    rw [hlenmod, hr8, hr12]
    push_neg
    constructor <;> omega
  simp only [parseParamSFO]
  rw [if_neg hglen, if_neg hg20, if_neg hgoff]
  simp only [readEntries]
  rw [hr16, hIdx]
  simp only
  rw [hr8, hr12, hResolve]
  simp only
  rw [hr4]

/-! Claim theorems. -/

/-- C1 amended: Round trip.  Decoding the encoded byte buffer of every
document with representable sizes and at least one entry (NUL-free
`uint8` key and text bytes, format tag matching the value shape, key
table under `2^16` bytes, buffer under `2^32` bytes — in particular
every document the fixture generator builds from a game tuple) yields a
document with the same entries (name, tag, decoded value) in the same
order; and in the two-entry scenario (TITLE = "Sample Title",
CATEGORY = "DG") the decoded document's text lookups return
"Sample Title" and "DG".  The zero-entry document is excluded: its
encoding is rejected by the decoder with OffsetOutOfRange. -/
theorem sfo_round_trip :
    (∀ es : List GenEntry, es ≠ [] → (∀ e ∈ es, entryWF e) →
      keySize es < u16 → (generateParamSFO es).length < u32 →
      ∃ doc, parseParamSFO (generateParamSFO es) = .ok doc ∧
        doc.entries.map (fun e => (e.key, e.dataFmt, e.value)) =
          es.map (fun e => (e.key, e.dataFmt, genSFOValue e.value))) ∧
    textOf (parseParamSFO (generateParamSFO scenarioEntries)) TITLE_KEY =
      sampleTitle ∧
    textOf (parseParamSFO (generateParamSFO scenarioEntries)) CATEGORY_KEY =
      [68, 71] := by
  have hscen := parse_generateParamSFO scenarioEntries (by decide) (by decide)
    (by decide) (by decide)
  refine ⟨?_, ?_, ?_⟩
  · intro es hne hwf hkey hlen
    exact ⟨_, parse_generateParamSFO es hne hwf hkey hlen, expEntries_proj es 0 0⟩
  · rw [hscen]
    decide
  · rw [hscen]
    decide

/-- Witness: the round trip applied to a concrete generator game tuple
(title "GW", title ID "BLUS12345", category "DG", app version "01.00",
NP id "NP"). -/
theorem sfo_round_trip_witness :
    ∃ doc, parseParamSFO (generateParamSFO (gameEntries [71, 87]
        [66, 76, 85, 83, 49, 50, 51, 52, 53] [68, 71]
        [48, 49, 46, 48, 48] [78, 80])) = .ok doc ∧
      doc.entries.map (fun e => (e.key, e.dataFmt, e.value)) =
        (gameEntries [71, 87] [66, 76, 85, 83, 49, 50, 51, 52, 53] [68, 71]
            [48, 49, 46, 48, 48] [78, 80]).map
          (fun e => (e.key, e.dataFmt, genSFOValue e.value)) :=
  sfo_round_trip.1 _ (by decide) (by decide) (by decide) (by decide)

/-- C1 counterexample: the zero-entry document has representable sizes,
yet the round trip fails on it — its encoding is exactly the 20-byte
empty file whose two table offsets equal the buffer length, which the
decoder rejects with OffsetOutOfRange instead of yielding a document
with the same (empty) entry list. -/
theorem sfo_round_trip_counterexample :
    generateParamSFO [] = emptyFileBuf ∧
    parseParamSFO (generateParamSFO []) = .err .offsetOutOfRange := by
  exact ⟨by decide, by decide⟩

/-- C6: UTF-8 value decoding truncates at the first NUL byte within the
declared-length bytes and keeps the full bytes when no NUL occurs; the
bytes "ABC\0\0\0\0" of declared length 7 decode to "ABC". -/
theorem text_truncation_at_nul :
    (∀ (fmt : Nat) (val : List Nat) (i : Nat),
      fmt = FMT_UTF8_SPECIAL ∨ fmt = FMT_UTF8 →
      formatValue i fmt val =
        .ok (.vstr (val.takeWhile (fun b => !(b % 256 == 0))))) ∧
    ([65, 66, 67, 0, 0, 0, 0] : List Nat).length = 7 ∧
    formatValue 0 FMT_UTF8 [65, 66, 67, 0, 0, 0, 0] =
      .ok (.vstr [65, 66, 67]) := by
  refine ⟨?_, rfl, by decide⟩
  intro fmt val i h
  simp only [formatValue, if_pos h]
  exact congrArg (fun s => PResult.ok (SFOValue.vstr s))
    (firstNulIdx_match_eq_takeWhile val)

/-- Witness: the truncation theorem applied to the "ABC\0\0\0\0" bytes
with the standard UTF-8 tag. -/
theorem text_truncation_at_nul_witness :
    formatValue 0 FMT_UTF8 [65, 66, 67, 0, 0, 0, 0] =
      .ok (.vstr (([65, 66, 67, 0, 0, 0, 0] : List Nat).takeWhile
        (fun b => !(b % 256 == 0)))) :=
  text_truncation_at_nul.1 FMT_UTF8 [65, 66, 67, 0, 0, 0, 0] 0 (Or.inr rfl)

/-- C7: int32 decoding needs at least 4 value bytes (else
InvalidIntegerData) and reads the little-endian `uint32` of the first 4;
integer encoding always produces exactly 4 little-endian bytes, and the
encode-decode composition is the identity on 32-bit values, in
particular on 42 and on 0xFFFFFFFF. -/
theorem int32_value_codec :
    (∀ (val : List Nat) (i : Nat), 4 ≤ val.length →
      formatValue i FMT_INT32 val = .ok (.vint (le32 (val.take 4)))) ∧
    (∀ (val : List Nat) (i : Nat), val.length < 4 →
      formatValue i FMT_INT32 val = .err (.invalidIntegerData i)) ∧
    (∀ n : Nat, (putU32 n).length = 4) ∧
    (∀ (n i : Nat), n < u32 →
      formatValue i FMT_INT32 (putU32 n) = .ok (.vint n)) ∧
    formatValue 0 FMT_INT32 (putU32 42) = .ok (.vint 42) ∧
    formatValue 0 FMT_INT32 (putU32 4294967295) =
      .ok (.vint 4294967295) := by
  have hred : ∀ (val : List Nat) (i : Nat), formatValue i FMT_INT32 val =
      if 4 ≤ val.length then .ok (.vint (le32 (val.take 4)))
      else .err (.invalidIntegerData i) := fun val i => rfl
  refine ⟨?_, ?_, fun n => rfl, ?_, by decide, by decide⟩
  · intro val i h
    rw [hred, if_pos h]
  · intro val i h
    rw [hred, if_neg (by omega)]
  · intro n i h
    rw [hred, if_pos (by simp [putU32]),
      List.take_of_length_le (by simp [putU32]), le32_putU32,
      Nat.mod_eq_of_lt h]

/-- Witness: the int32 encode-decode identity at 42. -/
theorem int32_value_codec_witness :
    formatValue 0 FMT_INT32 (putU32 42) = .ok (.vint 42) :=
  int32_value_codec.2.2.2.1 42 0 (by norm_num [u32])

/-- C8 counterexample: a 19-byte all-zero buffer fails with InvalidMagic,
not TruncatedHeader — the magic check runs before the minimum-length
check, so not every 19-byte buffer fails with TruncatedHeader. -/
theorem short_buffer_counterexample :
    parseParamSFO (List.replicate 19 0) = .err .invalidMagic ∧
    Err.invalidMagic ≠ Err.truncatedHeader := by
  exact ⟨by decide, by decide⟩

/-- C8 amended: a buffer whose first 4 bytes are the valid magic and
whose length is below 20 fails with TruncatedHeader; in particular every
19-byte buffer with valid magic does. -/
theorem truncated_header_error (data : List Nat)
    (hm : bytesAt data 0 4 = MAGIC) (h4 : 4 ≤ data.length)
    (h20 : data.length < 20) :
    parseParamSFO data = .err .truncatedHeader := by
  simp only [parseParamSFO]
  rw [if_neg (by push_neg; exact ⟨by omega, hm⟩), if_pos h20]

/-- Witness: a valid-magic 19-byte buffer fails with TruncatedHeader. -/
theorem truncated_header_error_witness :
    parseParamSFO (MAGIC ++ List.replicate 15 0) = .err .truncatedHeader :=
  truncated_header_error _ (by decide) (by decide) (by decide)

/-- C4 counterexample: the 20-byte zero-entry file whose two table
offsets equal the buffer length is rejected with OffsetOutOfRange; the
claimed empty-file exception does not exist in the code (`>=` check at
ps3.go line 124). -/
theorem empty_file_counterexample :
    parseParamSFO emptyFileBuf = .err .offsetOutOfRange := by decide

/-- C4 amended: after the magic and length checks, decode fails with
OffsetOutOfRange whenever either table offset is ≥ the `uint32` buffer
length — with no exception for zero-entry files whose offsets equal the
buffer length (those are rejected too). -/
theorem offset_out_of_range_error (data : List Nat)
    (hm : bytesAt data 0 4 = MAGIC) (h20 : 20 ≤ data.length)
    (hoff : data.length % u32 ≤ readU32 data 8 ∨
      data.length % u32 ≤ readU32 data 12) :
    parseParamSFO data = .err .offsetOutOfRange := by
  simp only [parseParamSFO]
  rw [if_neg (by push_neg; exact ⟨by omega, hm⟩), if_neg (by omega), if_pos hoff]

/-- Witness: the zero-entry file with offsets equal to its length is
rejected with OffsetOutOfRange. -/
theorem offset_out_of_range_error_witness :
    parseParamSFO emptyFileBuf = .err .offsetOutOfRange :=
  offset_out_of_range_error emptyFileBuf (by decide) (by decide) (by decide)

/-! Absence of the out-of-bounds/panic branch. -/

theorem formatValue_no_trap (i fmt : Nat) (val : List Nat) :
    formatValue i fmt val ≠ .trap := by
  unfold formatValue
  split_ifs <;> simp

theorem resolveEntry_no_trap (data : List Nat) (ktOff dtOff i : Nat)
    (raw : RawEntry) : resolveEntry data ktOff dtOff i raw ≠ .trap := by
  simp only [resolveEntry]
  by_cases h1 : data.length ≤ ktOff + raw.keyOffset
  · rw [if_pos h1]; simp
  · rw [if_neg h1]
    cases hf : firstNulIdx (data.drop (ktOff + raw.keyOffset)) with
    | none => simp
    | some ke =>
      simp only
      by_cases h2 : data.length < dtOff + raw.dataOff + raw.dataLen
      · rw [if_pos h2]; simp
      · rw [if_neg h2, sliceChk_of_le (Nat.le_add_right _ _) (by omega)]
        intro htrap
        simp only at htrap
        split at htrap
        · exact PResult.noConfusion htrap
        · exact PResult.noConfusion htrap
        · next hfv => exact formatValue_no_trap _ _ _ hfv

theorem resolveEntries_no_trap (data : List Nat) (ktOff dtOff : Nat) :
    ∀ (raws : List RawEntry) (i : Nat),
      resolveEntries data ktOff dtOff i raws ≠ .trap := by
  intro raws
  induction raws with
  | nil => intro i; simp [resolveEntries]
  | cons r rs ih =>
    intro i
    simp only [resolveEntries]
    intro htrap
    split at htrap
    · split at htrap
      · exact PResult.noConfusion htrap
      · exact PResult.noConfusion htrap
      · next hrec => exact ih (i + 1) hrec
    · exact PResult.noConfusion htrap
    · next hr => exact resolveEntry_no_trap _ _ _ _ _ hr

theorem readEntriesAux_no_trap (data : List Nat)
    (hlen : data.length + 12 < u32) :
    ∀ (count i : Nat), 20 + 16 * i ≤ data.length →
      readEntriesAux data count i ≠ .trap := by
  intro count
  induction count with
  | zero => intro i h; simp [readEntriesAux]
  | succ c ih =>
    intro i h
    have hu : u32 = 4294967296 := rfl
    have hoff : (20 + i * 16) % u32 = 20 + 16 * i := by
      rw [Nat.mod_eq_of_lt (by omega)]; omega
    have hoff2 : (20 + 16 * i + 16) % u32 = 20 + 16 * i + 16 := by
      apply Nat.mod_eq_of_lt
      omega
    have hlm : data.length % u32 = data.length := Nat.mod_eq_of_lt (by omega)
    simp only [readEntriesAux, hoff, hoff2, hlm]
    by_cases hg : data.length < 20 + 16 * i + 16
    · rw [if_pos hg]; simp
    · rw [if_neg hg, sliceChk_of_le (by omega) (by omega)]
      intro htrap
      simp only at htrap
      split at htrap
      · exact PResult.noConfusion htrap
      · exact PResult.noConfusion htrap
      · next hrec => exact ih (i + 1) (by omega) hrec

theorem parseParamSFO_no_trap (data : List Nat)
    (hlen : data.length + 12 < u32) : parseParamSFO data ≠ .trap := by
  simp only [parseParamSFO]
  by_cases h1 : data.length < 4 ∨ bytesAt data 0 4 ≠ MAGIC
  · rw [if_pos h1]; simp
  · rw [if_neg h1]
    by_cases h2 : data.length < 20
    · rw [if_pos h2]; simp
    · rw [if_neg h2]
      by_cases h3 : data.length % u32 ≤ readU32 data 8 ∨
          data.length % u32 ≤ readU32 data 12
      · rw [if_pos h3]; simp
      · rw [if_neg h3]
        simp only [readEntries]
        intro htrap
        split at htrap
        · split at htrap
          · exact PResult.noConfusion htrap
          · exact PResult.noConfusion htrap
          · next hres => exact resolveEntries_no_trap _ _ _ _ _ hres
        · exact PResult.noConfusion htrap
        · next hre => exact readEntriesAux_no_trap data hlen _ 0 (by omega) hre

/-- C2 amended: decoding any prefix of a buffer shorter than
2^32 - 12 bytes — in particular any proper non-empty prefix of a validly
encoded buffer — either fails with one of the decoder's typed structural
errors (InvalidMagic, TruncatedHeader, OffsetOutOfRange, TruncatedIndex,
InvalidKeyOffset, UnterminatedKey, ValueOutOfBounds, InvalidIntegerData)
or completes: the out-of-bounds/panic branch of the embedding is
unreachable. -/
theorem truncation_safety (buf : List Nat) (k : Nat)
    (hlen : buf.length + 12 < u32) :
    parseParamSFO (buf.take k) ≠ .trap := by
  apply parseParamSFO_no_trap
  have h : (buf.take k).length ≤ buf.length := by
    rw [List.length_take]
    omega
  omega

/-- Witness: truncation safety applied to the 10-byte prefix of the
encoded two-entry scenario buffer. -/
theorem truncation_safety_witness :
    parseParamSFO ((generateParamSFO scenarioEntries).take 10) ≠ .trap :=
  truncation_safety (generateParamSFO scenarioEntries) 10 (by decide)

/-- C2 counterexample: the 2-byte prefix of the validly encoded
two-entry scenario buffer fails with InvalidMagic, which is none of the
four structural errors the claim lists (and decoding did not
complete). -/
theorem truncation_safety_counterexample :
    parseParamSFO ((generateParamSFO scenarioEntries).take 2) =
      .err .invalidMagic ∧
    Err.invalidMagic ≠ Err.truncatedHeader ∧
    (∀ n, Err.invalidMagic ≠ Err.truncatedIndex n) ∧
    (∀ n, Err.invalidMagic ≠ Err.valueOutOfBounds n) ∧
    (∀ n, Err.invalidMagic ≠ Err.unterminatedKey n) := by
  refine ⟨by decide, by decide, fun n h => Err.noConfusion h,
    fun n h => Err.noConfusion h, fun n h => Err.noConfusion h⟩

/-! Index bound failure (claim C5). -/

theorem readEntriesAux_truncated (data : List Nat) (hlen : data.length + 12 < u32) :
    ∀ (count i : Nat), 20 + 16 * i ≤ data.length →
      data.length < 20 + 16 * (i + count) →
      ∃ j, readEntriesAux data count i = .err (.truncatedIndex j) := by
  intro count
  induction count with
  | zero =>
    intro i h hc
    exact absurd hc (by omega)
  | succ c ih =>
    intro i h hc
    have hu : u32 = 4294967296 := rfl
    have hoff : (20 + i * 16) % u32 = 20 + 16 * i := by
      rw [Nat.mod_eq_of_lt (by omega)]; omega
    have hoff2 : (20 + 16 * i + 16) % u32 = 20 + 16 * i + 16 := by
      apply Nat.mod_eq_of_lt
      omega
    have hlm : data.length % u32 = data.length := Nat.mod_eq_of_lt (by omega)
    simp only [readEntriesAux, hoff, hoff2, hlm]
    by_cases hg : data.length < 20 + 16 * i + 16
    · refine ⟨i, ?_⟩
      rw [if_pos hg]
    · rw [if_neg hg, sliceChk_of_le (by omega) (by omega)]
      obtain ⟨j, hj⟩ := ih (i + 1) (by omega) (by omega)
      refine ⟨j, ?_⟩
      rw [hj]

/-- C5: when `20 + entryCount*16` in exact arithmetic exceeds the buffer
length (buffer below 2^32 - 12 bytes), the index-reading phase fails
with TruncatedIndex; in particular the 24-byte buffer with entry count
0xFFFFFFFF fails (functionally) at entry 0 — although the Go source
allocates the `entryCount`-sized record slice before this per-entry
check. -/
theorem truncated_index_error :
    (∀ (data : List Nat) (count : Nat), 20 ≤ data.length →
      data.length + 12 < u32 → data.length < 20 + 16 * count →
      ∃ j, readEntries data count = .err (.truncatedIndex j)) ∧
    readU32 hugeCountBuf 16 = 4294967295 ∧
    parseParamSFO hugeCountBuf = .err (.truncatedIndex 0) := by
  refine ⟨?_, by decide, by decide⟩
  intro data count h20 hlen hc
  exact readEntriesAux_truncated data hlen count 0 (by omega) (by omega)

/-- Witness: the index bound failure at the huge-count buffer. -/
theorem truncated_index_error_witness :
    ∃ j, readEntries hugeCountBuf 4294967295 = .err (.truncatedIndex j) :=
  truncated_index_error.1 hugeCountBuf 4294967295 (by decide) (by decide)
    (by decide)

/-! Error precedence in the resolution loop (claim C3). -/

theorem resolveEntries_err_after (data : List Nat) (ktOff dtOff : Nat) :
    ∀ (pre : List RawEntry) (i : Nat) (es0 : List ParamSFOEntry)
      (raw : RawEntry) (rest : List RawEntry) (e : Err),
      resolveEntries data ktOff dtOff i pre = .ok es0 →
      resolveEntry data ktOff dtOff (i + pre.length) raw = .err e →
      resolveEntries data ktOff dtOff i (pre ++ raw :: rest) = .err e := by
  intro pre
  induction pre with
  | nil =>
    intro i es0 raw rest e hok hErr
    simp only [List.length_nil, Nat.add_zero] at hErr
    simp only [List.nil_append, resolveEntries, hErr]
  | cons p pre ih =>
    intro i es0 raw rest e hok hErr
    simp only [resolveEntries] at hok
    split at hok
    · next e1 hp =>
      split at hok
      · next es1 hrec =>
        have hErr2 : resolveEntry data ktOff dtOff (i + 1 + pre.length) raw =
            .err e := by
          have harr : i + 1 + pre.length = i + (p :: pre).length := by
            simp [List.length_cons]; omega
          rw [harr]; exact hErr
        simp only [List.cons_append, resolveEntries, hp]
        show (match resolveEntries data ktOff dtOff (i + 1) (pre ++ raw :: rest) with
          | PResult.ok es => PResult.ok (e1 :: es)
          | PResult.err er => PResult.err er
          | PResult.trap => PResult.trap) = PResult.err e
        rw [ih (i + 1) es1 raw rest e hrec hErr2]
      · exact PResult.noConfusion hok
      · exact PResult.noConfusion hok
    · exact PResult.noConfusion hok
    · exact PResult.noConfusion hok

/-- C3 amended: a value range `[dtOff+dataOff, dtOff+dataOff+dataLen)`
not fully contained in the buffer makes decoding fail with
ValueOutOfBounds at that record's index, provided all earlier index
records resolve successfully and the record's own key resolves (the
parser reports the first failing record, and checks a record's key
before its value range); concretely, a full decode of a buffer whose
single record has a resolvable key and `dataOff + dataLen` exceeding
`bufferLength - dataTableOffset` fails with ValueOutOfBounds. -/
theorem value_out_of_bounds_error :
    (∀ (data : List Nat) (ktOff dtOff : Nat) (pre : List RawEntry)
        (i : Nat) (es0 : List ParamSFOEntry) (raw : RawEntry)
        (rest : List RawEntry) (ke : Nat),
      resolveEntries data ktOff dtOff i pre = .ok es0 →
      ktOff + raw.keyOffset < data.length →
      firstNulIdx (data.drop (ktOff + raw.keyOffset)) = some ke →
      data.length < dtOff + raw.dataOff + raw.dataLen →
      resolveEntries data ktOff dtOff i (pre ++ raw :: rest) =
        .err (.valueOutOfBounds (i + pre.length))) ∧
    parseParamSFO goodKeyBadRangeBuf = .err (.valueOutOfBounds 0) := by
  refine ⟨?_, by decide⟩
  intro data ktOff dtOff pre i es0 raw rest ke hpre hks hnul hrange
  have hone : resolveEntry data ktOff dtOff (i + pre.length) raw =
      .err (.valueOutOfBounds (i + pre.length)) := by
    simp only [resolveEntry, hnul]
    rw [if_neg (by omega), if_pos hrange]
  exact resolveEntries_err_after data ktOff dtOff pre i es0 raw rest _ hpre hone

/-- Witness: the ValueOutOfBounds failure on the single bad-range record
of the concrete buffer, with an empty resolved prefix. -/
theorem value_out_of_bounds_error_witness :
    resolveEntries goodKeyBadRangeBuf 36 36 0 ([] ++ ⟨0, 516, 100, 0, 0⟩ :: []) =
      .err (.valueOutOfBounds 0) :=
  value_out_of_bounds_error.1 goodKeyBadRangeBuf 36 36 [] 0 []
    ⟨0, 516, 100, 0, 0⟩ [] 1 (by decide) (by decide) (by decide) (by decide)

/-- C3 counterexample: a buffer that passes header and index decoding
and whose single index record's value range is not contained in the
buffer nonetheless fails with UnterminatedKey, not ValueOutOfBounds,
because the record's key check comes first. -/
theorem value_out_of_bounds_counterexample :
    readEntries badKeyBadRangeBuf 1 = .ok [⟨0, 516, 100, 0, 0⟩] ∧
    readU32 badKeyBadRangeBuf 12 = 36 ∧
    badKeyBadRangeBuf.length = 40 ∧
    badKeyBadRangeBuf.length < 36 + 0 + 100 ∧
    parseParamSFO badKeyBadRangeBuf = .err (.unterminatedKey 0) ∧
    Err.unterminatedKey 0 ≠ Err.valueOutOfBounds 0 := by decide

/-! Lookup characterizations (claims C9 and C10). -/

theorem getEntryAux_eq_find (k : List Nat) :
    ∀ l : List ParamSFOEntry, getEntryAux k l = l.find? (fun e => e.key == k) := by
  intro l
  induction l with
  | nil => rfl
  | cons e l ih =>
    by_cases h : e.key = k
    · simp [getEntryAux, h]
    · simp [getEntryAux, h, ih]

theorem firstStringFor_eq_find (k : List Nat) :
    ∀ l : List ParamSFOEntry, firstStringFor k l =
      (match l.find? (fun e => e.key == k && isVstr e.value) with
        | some e => strOfValue e.value
        | none => []) := by
  intro l
  induction l with
  | nil => rfl
  | cons e l ih =>
    by_cases hk : e.key = k
    · cases hv : e.value with
      | vstr s => simp [firstStringFor, hk, hv, isVstr, strOfValue]
      | vint n => simp [firstStringFor, hk, hv, isVstr, ih]
      | vbytes b => simp [firstStringFor, hk, hv, isVstr, ih]
    · simp [firstStringFor, hk, ih]

theorem getString_find (p : ParamSFO) (k : List Nat) :
    getString p k = (match p.entries.find? (fun e => e.key == k) with
      | some e => strOfValue e.value
      | none => []) := by
  rw [← getEntryAux_eq_find k p.entries]
  cases ho : getEntryAux k p.entries with
  | none => simp [getString, getEntry, ho]
  | some e =>
    cases hv : e.value <;> simp [getString, getEntry, ho, hv, strOfValue]

theorem getInt_find (p : ParamSFO) (k : List Nat) :
    getInt p k = (match p.entries.find? (fun e => e.key == k) with
      | some e => intOfValue e.value
      | none => 0) := by
  rw [← getEntryAux_eq_find k p.entries]
  cases ho : getEntryAux k p.entries with
  | none => simp [getInt, getEntry, ho]
  | some e =>
    cases hv : e.value <;> simp [getInt, getEntry, ho, hv, intOfValue]

/-- C9 counterexample: on a document with two TITLE entries — the first
holding an integer, the second a string — GetTitle skips the first
name match and returns the second entry's string, so not every lookup
returns the value of the first entry whose name matches. -/
theorem first_match_counterexample :
    getEntry dupTitleDoc TITLE_KEY =
      some ⟨TITLE_KEY, .vint 5, FMT_INT32, 4, 4, 0⟩ ∧
    getTitle dupTitleDoc = [88] ∧
    SFOValue.vstr [88] ≠ SFOValue.vint 5 := by decide

/-- C9 amended: name uniqueness is never enforced; GetEntry returns the
first entry whose name matches, GetString/GetInt return that first name
match's value when it has the expected type (and the zero value
otherwise), while GetTitle/GetTitleID return the value of the first
entry whose name matches and holds a string, skipping earlier matching
entries of the wrong type. -/
theorem first_match_lookups :
    (∀ (p : ParamSFO) (k : List Nat),
      getEntry p k = p.entries.find? (fun e => e.key == k)) ∧
    (∀ (p : ParamSFO) (k : List Nat),
      getString p k =
        (match p.entries.find? (fun e => e.key == k) with
          | some e => strOfValue e.value
          | none => [])) ∧
    (∀ (p : ParamSFO) (k : List Nat),
      getInt p k =
        (match p.entries.find? (fun e => e.key == k) with
          | some e => intOfValue e.value
          | none => 0)) ∧
    (∀ p : ParamSFO,
      getTitle p =
        (match p.entries.find? (fun e => e.key == TITLE_KEY && isVstr e.value) with
          | some e => strOfValue e.value
          | none => [])) ∧
    (∀ p : ParamSFO,
      getTitleID p =
        (match p.entries.find? (fun e => e.key == TITLE_ID_KEY && isVstr e.value) with
          | some e => strOfValue e.value
          | none => [])) := by
  refine ⟨fun p k => getEntryAux_eq_find k p.entries, getString_find, getInt_find,
    fun p => firstStringFor_eq_find TITLE_KEY p.entries,
    fun p => firstStringFor_eq_find TITLE_ID_KEY p.entries⟩

/-- C10: absence is signalled with zero values, not an option/error:
GetString returns `""` and GetInt returns `0` both when no entry with
the name exists and when the first matching entry holds a value of a
different type — indistinguishable from a stored empty string or stored
zero; only GetEntry exposes a found/not-found flag. -/
theorem zero_value_absence :
    (∀ (p : ParamSFO) (k : List Nat), getEntry p k = none →
      getString p k = [] ∧ getInt p k = 0) ∧
    (∀ (p : ParamSFO) (k : List Nat) (e : ParamSFOEntry),
      getEntry p k = some e → (∀ s, e.value ≠ .vstr s) →
      getString p k = []) ∧
    (∀ (p : ParamSFO) (k : List Nat) (e : ParamSFOEntry),
      getEntry p k = some e → (∀ n, e.value ≠ .vint n) →
      getInt p k = 0) ∧
    (getEntry storedEmptyDoc [75] = some ⟨[75], .vstr [], FMT_UTF8, 1, 1, 0⟩ ∧
      getString storedEmptyDoc [75] = []) ∧
    (getEntry noEntryDoc [75] = none ∧ getString noEntryDoc [75] = [] ∧
      getInt noEntryDoc [75] = 0) := by
  refine ⟨?_, ?_, ?_, by decide, by decide⟩
  · intro p k h
    exact ⟨by simp [getString, h], by simp [getInt, h]⟩
  · intro p k e h hne
    cases hv : e.value with
    | vstr s => exact absurd hv (hne s)
    | vint n => simp [getString, h, hv]
    | vbytes b => simp [getString, h, hv]
  · intro p k e h hne
    cases hv : e.value with
    | vint n => exact absurd hv (hne n)
    | vstr s => simp [getInt, h, hv]
    | vbytes b => simp [getInt, h, hv]

/-- Witness: zero-value absence signalling on the entry-less document. -/
theorem zero_value_absence_witness :
    getString noEntryDoc [75] = [] ∧ getInt noEntryDoc [75] = 0 :=
  zero_value_absence.1 noEntryDoc [75] (by decide)

end SFO
